import Mathlib

/-!
Shallow embedding of the jointhedots synchronization engine
(`src/structs/dotfile.rs`, `src/structs/manifest.rs`, `src/structs/metadata.rs`,
`src/structs/config.rs`, `src/git/operations.rs`).

The repository, its working directory, the local filesystem and the trace of
executed hook commands are modelled as one explicit state record.  Fallible
operations are state transformers returning either a value or an error message,
in both cases together with the state at the moment of return (errors can leave
the state mutated, which is essential for the checkout/restore properties).
-/

namespace JTD

/-- A commit of the modelled repository: an id, parent commit ids, a commit
timestamp, a message and a tree mapping repository-relative file paths to file
contents. -/
structure Commit where
  id : String
  parents : List String
  time : Int
  message : String
  tree : List (String × String)
deriving DecidableEq, Repr

/-- The HEAD of the repository: either a symbolic reference to a named ref or a
detached commit id. -/
inductive Head where
  | ref (name : String)
  | detached (id : String)
deriving DecidableEq, Repr

/-- The full state visible to the synchronization engine: the repository
(commits, refs, HEAD, working directory, index), the local filesystem holding
the dotfile targets, the trace of shell commands executed by the hook runner,
and counters for fresh commit ids and timestamps. -/
structure SyncState where
  commits : List Commit
  refs : List (String × String)
  head : Head
  workdir : List (String × String)
  index : List (String × String)
  localFs : List (String × String)
  executedHooks : List String
  nextId : Nat
  nextTime : Int
deriving DecidableEq, Repr

/-- Result of a fallible stateful operation: a value or an error message, in
both cases with the state at the moment of return. -/
inductive Res (α : Type) where
  | ok (a : α) (s : SyncState)
  | err (e : String) (s : SyncState)
deriving DecidableEq, Repr

/-- The state at the moment of return, for either outcome. -/
def Res.state {α : Type} : Res α → SyncState
  | .ok _ s => s
  | .err _ s => s

/-- Whether the operation succeeded. -/
def Res.isOk {α : Type} : Res α → Bool
  | .ok _ _ => true
  | .err _ _ => false

/-- The returned value on success, `none` on error. -/
def Res.value? {α : Type} : Res α → Option α
  | .ok a _ => some a
  | .err _ _ => none

/-- The error message on failure, `none` on success. -/
def Res.error? {α : Type} : Res α → Option String
  | .ok _ _ => none
  | .err e _ => some e

/-- The state monad of the embedding. -/
def M (α : Type) : Type := SyncState → Res α

instance : Monad M where
  pure a := fun s => .ok a s
  bind x f := fun s =>
    match x s with
    | .ok a s1 => f a s1
    | .err e s1 => .err e s1

/-- Fail with an error message, leaving the state unchanged. -/
def M.throw {α : Type} (e : String) : M α := fun s => .err e s

/-- `Result::map_err` with a constant replacement function. -/
def M.mapErr {α : Type} (x : M α) (f : String → String) : M α := fun s =>
  match x s with
  | .ok a s1 => .ok a s1
  | .err e s1 => .err (f e) s1

def getState : M SyncState := fun s => .ok s s

def setState (s1 : SyncState) : M Unit := fun _ => .ok () s1

/-- Insert-or-replace in an association list. -/
def upsert (l : List (String × String)) (k v : String) : List (String × String) :=
  (k, v) :: l.filter (fun p => p.1 ≠ k)

/-- Look up a commit by its id. -/
def findCommit (commits : List Commit) (id : String) : Option Commit :=
  commits.find? (fun c => c.id = id)

/-- The commit id HEAD currently resolves to, if any. -/
def resolveHeadId (s : SyncState) : Option String :=
  match s.head with
  | .ref n => s.refs.lookup n
  | .detached id => some id

/-- What `revparse_ext` found a revision string to be. -/
inductive RevTarget where
  | headRef
  | namedRef (name : String)
  | noRef
deriving DecidableEq, Repr

/-- `repo.revparse_ext`: resolve a revision string to a commit, remembering
whether it named a reference (so that checkout can move HEAD symbolically) or
a bare commit id (so that checkout detaches HEAD). -/
def revparse (s : SyncState) (r : String) : Option (Commit × RevTarget) :=
  if r = "HEAD" then
    ((resolveHeadId s).bind (findCommit s.commits)).map (fun c => (c, RevTarget.headRef))
  else
    match s.refs.lookup r with
    | some cid => (findCommit s.commits cid).map (fun c => (c, RevTarget.namedRef r))
    | none => (findCommit s.commits r).map (fun c => (c, RevTarget.noRef))

/-- `operations.rs::get_head`: resolve HEAD to a commit. -/
def get_head : M Commit := fun s =>
  match (resolveHeadId s).bind (findCommit s.commits) with
  | some c => .ok c s
  | none => .err "Could not resolve HEAD" s

/-- `operations.rs::get_head_hash`. -/
def get_head_hash : M String := do
  let c ← get_head
  pure c.id

/-- `repo.head()?.name()`: the name of the reference HEAD points at, or the
literal "HEAD" when detached.  Fails when HEAD points at a missing ref. -/
def head_ref_name : M String := fun s =>
  match s.head with
  | .ref n => if (s.refs.lookup n).isSome then .ok n s else .err "HEAD points at a missing ref" s
  | .detached _ => .ok "HEAD" s

/-- `repo.checkout_tree`: update the working directory to the target tree.
Only paths on which the target tree differs from the baseline (the current
HEAD commit tree) are touched; local modifications to paths outside that diff
are left in place, as with a safe git checkout.  The index is set to the
target tree. -/
def checkoutTree (s : SyncState) (target : List (String × String)) : SyncState :=
  let baseline :=
    match (resolveHeadId s).bind (findCommit s.commits) with
    | some c => c.tree
    | none => []
  let keys := (baseline.map Prod.fst ++ target.map Prod.fst).dedup
  let wd := keys.foldl
    (fun wd k =>
      if baseline.lookup k = target.lookup k then wd
      else
        match target.lookup k with
        | some v => upsert wd k v
        | none => wd.filter (fun q => q.1 ≠ k)) s.workdir
  { s with workdir := wd, index := target }

/-- `operations.rs::checkout_ref`: revparse the revision string, check its tree
out into the working directory and move HEAD (symbolically for a named ref,
detached for a bare commit id). -/
def checkout_ref (r : String) : M Unit := fun s =>
  match revparse s r with
  | none => .err ("Ref not found: " ++ r) s
  | some (c, tgt) =>
      let s1 := checkoutTree s c.tree
      match tgt with
      | .headRef => .ok () s1
      | .namedRef n => .ok () { s1 with head := .ref n }
      | .noRef => .ok () { s1 with head := .detached c.id }

/-- `operations.rs::get_commit`: resolve a revision string to a commit. -/
def get_commit (commit_hash : String) : M Commit := fun s =>
  match revparse s commit_hash with
  | some (c, _) => .ok c s
  | none => .err ("Commit not found: " ++ commit_hash) s

/-- Move the ref HEAD points at (or detached HEAD itself) to the given commit
id, as `repo.commit(Some("HEAD"), ..)` and a soft reset do. -/
def updateHeadTo (cid : String) : M Unit := fun s =>
  match s.head with
  | .ref n => .ok () { s with refs := upsert s.refs n cid }
  | .detached _ => .ok () { s with head := .detached cid }

/-- `operations.rs::add_all`: stage the given paths from the working directory
into the index (a path missing from the working directory is removed from the
index), or stage everything when no paths are given. -/
def add_all (file_paths : Option (List String)) : M Unit := fun s =>
  match file_paths with
  | some paths =>
      .ok () { s with
        index := paths.foldl
          (fun idx p =>
            match s.workdir.lookup p with
            | some v => upsert idx p v
            | none => idx.filter (fun q => q.1 ≠ p)) s.index }
  | none => .ok () { s with index := s.workdir }

/-- The parent resolution of `add_and_commit`: the given parents, or the
current HEAD commit when none are given. -/
def resolve_parents (maybe_parents : Option (List String)) : M (List String) :=
  match maybe_parents with
  | some ps => pure ps
  | none => do
      let h ← get_head
      pure [h.id]

/-- The HEAD update of `repo.commit(update_ref, ..)`: advance HEAD when a ref
to update is given (always `"HEAD"` in this code base). -/
def update_ref_step (update_ref : Option String) (cid : String) : M Unit :=
  match update_ref with
  | some _ => updateHeadTo cid
  | none => pure ()

/-- `operations.rs::add_and_commit`: stage the given files, write the index as
the new commit tree, use the given parents (or the current HEAD commit when
none are given), create the commit and, when `update_ref` is given, advance
HEAD to it. -/
def add_and_commit (file_paths : Option (List String)) (message : String)
    (maybe_parents : Option (List String)) (update_ref : Option String) : M Commit := do
  add_all file_paths
  let parents ← resolve_parents maybe_parents
  let s ← getState
  let c : Commit :=
    { id := "commit-" ++ toString s.nextId, parents := parents,
      time := s.nextTime, message := message, tree := s.index }
  setState { s with commits := c :: s.commits, nextId := s.nextId + 1, nextTime := s.nextTime + 1 }
  update_ref_step update_ref c.id
  pure c

/-- `repo.branch(name, commit, true)`: create or move a branch ref to the
commit, without moving HEAD. -/
def branch (name : String) (c : Commit) : M Unit := fun s =>
  .ok () { s with refs := upsert s.refs name c.id }

/-- `repo.reset(target, ResetType::Soft, None)`: move HEAD to the target
commit, leaving index and working directory untouched. -/
def reset_soft (c : Commit) : M Unit := updateHeadTo c.id

/-- Breadth-first enumeration of a set of commits and their ancestors, with
explicit fuel for termination. -/
def ancestorsAux (commits : List Commit) : Nat → List String → List String
  | 0, _ => []
  | _, [] => []
  | fuel + 1, id :: rest =>
      id :: ancestorsAux commits fuel
        (rest ++ (((findCommit commits id).map Commit.parents).getD []))

/-- All ancestors of a commit id (the commit itself included). -/
def ancestors (commits : List Commit) (id : String) : List String :=
  ancestorsAux commits ((commits.length + 1) * (commits.length + 1)) [id]

/-- The merge base used by the modelled three-way merge: the first common
ancestor found walking back from `ours`. -/
def mergeBase (commits : List Commit) (ours theirs : String) : Option String :=
  (ancestors commits ours).find? (fun a => (ancestors commits theirs).contains a)

/-- Three-way merge of one path: `none` is a conflict, `some e` is the merged
entry (`e = none` meaning the path is absent from the result). -/
def mergeFile (b o t : Option String) : Option (Option String) :=
  if o = t then some o
  else if t = b then some o
  else if o = b then some t
  else none

/-- Three-way merge of whole trees; `none` when any path conflicts. -/
def threeWayMerge (base ours theirs : List (String × String)) :
    Option (List (String × String)) :=
  let keys := (base.map Prod.fst ++ ours.map Prod.fst ++ theirs.map Prod.fst).dedup
  keys.foldr
    (fun k acc =>
      match acc, mergeFile (base.lookup k) (ours.lookup k) (theirs.lookup k) with
      | some l, some (some v) => some ((k, v) :: l)
      | some l, some none => some l
      | _, _ => none)
    (some [])

/-- `operations.rs::normal_merge`: merge the feature tip into the current HEAD
with a three-way merge, then commit the merged tree with message "Merge" and
parents `[main_tip, feature_tip]`, advancing HEAD, and return the new HEAD
commit.  The interactive blocking loop the source enters on conflicts is not
shallow-embeddable; a conflicted merge is modelled as an error. -/
def normal_merge (main_tip feature_tip : Commit) : M Commit := do
  let s ← getState
  let ours ← get_head
  let baseTree :=
    match (mergeBase s.commits ours.id feature_tip.id).bind (findCommit s.commits) with
    | some b => b.tree
    | none => []
  match threeWayMerge baseTree ours.tree feature_tip.tree with
  | none => M.throw "merge conflicts require interactive resolution"
  | some merged => do
      let s1 ← getState
      let c : Commit :=
        { id := "commit-" ++ toString s1.nextId, parents := [main_tip.id, feature_tip.id],
          time := s1.nextTime, message := "Merge", tree := merged }
      setState { s1 with
        commits := c :: s1.commits, workdir := merged, index := merged,
        nextId := s1.nextId + 1, nextTime := s1.nextTime + 1 }
      updateHeadTo c.id
      get_head

/-- `fs::read_to_string` of a local filesystem path. -/
def read_local_file (path : String) : M String := fun s =>
  match s.localFs.lookup path with
  | some c => .ok c s
  | none => .err ("No such file or directory: " ++ path) s

/-- `fs::read_to_string` of a path inside the repository working directory. -/
def read_workdir_file (path : String) : M String := fun s =>
  match s.workdir.lookup path with
  | some c => .ok c s
  | none => .err ("No such file or directory: " ++ path) s

/-- `fs::copy` from the local filesystem into the repository working
directory. -/
def copy_local_to_workdir (src dst : String) : M Unit := fun s =>
  match s.localFs.lookup src with
  | some c => .ok () { s with workdir := upsert s.workdir dst c }
  | none => .err ("Failed to copy file: " ++ src) s

/-- `fs::copy` from the repository working directory onto the local
filesystem. -/
def copy_workdir_to_local (src dst : String) : M Unit := fun s =>
  match s.workdir.lookup src with
  | some c => .ok () { s with localFs := upsert s.localFs dst c }
  | none => .err ("Failed to copy target file: " ++ src) s

/-- `utils.rs::run_command_vec` (the hook runner): spawn each command in
order.  The modelled runner records the commands in the execution trace. -/
def run_command_vec (command_vec : List String) : M Unit := fun s =>
  .ok () { s with executedHooks := s.executedHooks ++ command_vec }

/-- Modelled from the spec: `hash_command_vec` (referenced from
`dotfile.rs` but absent from the `src/utils.rs` snapshot) computes a content
hash of an ordered hook command list, "stable across repeated calls with the
same ordered command list", differing "if the list order or any command string
changes".  Modelled as an injective, executable encoding of the list. -/
def hash_command_vec (command_vec : List String) : String :=
  command_vec.foldl (fun acc c => acc ++ toString c.length ++ ":" ++ c) "sha1:"

/-- `Sha1::digest` as used by `has_changed`, which only ever compares two
digests for equality; modelled as the (injective) identity on contents. -/
def sha1 (contents : String) : String := contents

/-- `lib.rs::MANIFEST_PATH`. -/
def MANIFEST_PATH : String := "~/.local/share/jointhedots/manifest.yaml"

/-- `structs/metadata.rs::DotfileMetadata`: per-dotfile provenance record. -/
structure DotfileMetadata where
  install_hash : String
  sync_hash : String
  pre_install_hash : String
  post_install_hash : String
deriving DecidableEq, Repr

/-- `DotfileMetadata::new`. -/
def DotfileMetadata.new (commit_hash sync_hash : String)
    (pre_install_hash post_install_hash : String) : DotfileMetadata :=
  { install_hash := commit_hash, sync_hash := sync_hash,
    pre_install_hash := pre_install_hash, post_install_hash := post_install_hash }

/-- `structs/config.rs::Config`. -/
structure Config where
  commit_prefix : String
  squash_commits : Bool
deriving DecidableEq, Repr

/-- `Config::default()`. -/
def Config.default : Config := { commit_prefix := "🔁 ", squash_commits := true }

/-- Join names with ", ", turning the final separator into " and " — the net
effect of the reverse/replacen/reverse dance in `generate_commit_message`. -/
def commaAndJoin (names : List String) : String :=
  match names.reverse with
  | [] => ""
  | [x] => x
  | last :: rest => String.intercalate ", " rest.reverse ++ " and " ++ last

/-- `Config::generate_commit_message`. -/
def Config.generate_commit_message (c : Config) (dotfile_names : List String) : String :=
  if dotfile_names.length = 1 then
    c.commit_prefix ++ "Sync " ++ dotfile_names.headI ++ " dotfile"
  else
    c.commit_prefix ++ "Sync dotfiles for " ++ commaAndJoin dotfile_names

/-- `structs/dotfile.rs::Dotfile`. -/
structure Dotfile where
  file : String
  target : String
  pre_install : Option (List String)
  post_install : Option (List String)
deriving DecidableEq, Repr

namespace Dotfile

/-- `Dotfile::hash_pre_install`. -/
def hash_pre_install (d : Dotfile) : String :=
  match d.pre_install with
  | some pre_install => hash_command_vec pre_install
  | none => ""

/-- `Dotfile::hash_post_install`. -/
def hash_post_install (d : Dotfile) : String :=
  match d.post_install with
  | some post_install => hash_command_vec post_install
  | none => ""

/-- `Dotfile::has_unexecuted_run_stages`. -/
def has_unexecuted_run_stages (d : Dotfile) (maybe_metadata : Option DotfileMetadata) : Bool :=
  match maybe_metadata with
  | some metadata =>
      (d.pre_install.isSome && metadata.pre_install_hash ≠ d.hash_pre_install)
        || (d.post_install.isSome && metadata.post_install_hash ≠ d.hash_post_install)
  | none => d.pre_install.isSome || d.post_install.isSome

/-- `Dotfile::run_pre_install`: run the pre-install hooks unless the metadata
records that the same hook list already ran; return the hash of the list that
ran, or the empty string when nothing ran. -/
def run_pre_install (d : Dotfile) (metadata : Option DotfileMetadata) : M String := do
  match d.pre_install with
  | none => pure ""
  | some pre_install =>
      let skip_pre_install :=
        match metadata with
        | some m => d.hash_pre_install == m.pre_install_hash
        | none => false
      if skip_pre_install then pure ""
      else do
        run_command_vec pre_install
        pure d.hash_pre_install

/-- `Dotfile::run_post_install`. -/
def run_post_install (d : Dotfile) (metadata : Option DotfileMetadata) : M String := do
  match d.post_install with
  | none => pure ""
  | some post_install =>
      let skip_post_install :=
        match metadata with
        | some m => d.hash_post_install == m.post_install_hash
        | none => false
      if skip_post_install then pure ""
      else do
        run_command_vec post_install
        pure d.hash_post_install

/-- `Dotfile::install_dotfile`: copy the repository copy of the dotfile onto
its (home-expanded) local target path. -/
def install_dotfile (d : Dotfile) : M Unit :=
  copy_workdir_to_local d.file d.target

/-- `Dotfile::has_changed`: record the current HEAD ref name, hash the local
target contents, check out `metadata.sync_hash`, hash the repository copy
there, then restore the original HEAD and compare the hashes.  The early
error returns of the source (in particular the repository-file read after the
checkout) are preserved as-is. -/
def has_changed (d : Dotfile) (metadata : DotfileMetadata) : M Bool := do
  let head_ref_nm ← head_ref_name
  let dotfile_contents ← read_local_file d.target
  let local_dotfile_hash := sha1 dotfile_contents
  checkout_ref metadata.sync_hash
  let repo_contents ← read_workdir_file d.file
  let repo_dotfile_hash := sha1 repo_contents
  if local_dotfile_hash ≠ repo_dotfile_hash then do
    checkout_ref head_ref_nm
    pure true
  else do
    checkout_ref head_ref_nm
    pure false

/-- The refusal message of `Dotfile::install`. -/
def localChangesMsg : String :=
  "Refusing to install dotfile. Changes have been made since last sync. either run \"jtd sync\" for this dotfile or call install again with the \"--force\" flag"

/-- The guard at the top of `Dotfile::install`: when not forcing and metadata
is present, refuse if the local content has changed since the last sync. -/
def install_guard (d : Dotfile) (maybe_metadata : Option DotfileMetadata)
    (force : Bool) : M Unit :=
  if !force then
    match maybe_metadata with
    | some metadata => do
        let changed ← d.has_changed metadata
        if changed then M.throw localChangesMsg
        else pure ()
    | none => pure ()
  else pure ()

/-- A hook stage of `Dotfile::install`: run it unless `skip_install_steps`
is set, in which case the recorded hash is the empty string. -/
def run_stage (skip_install_steps : Bool) (stage : M String) : M String :=
  if !skip_install_steps then stage else pure ""

/-- `Dotfile::install`: capture the HEAD hash, refuse when unforced local
changes exist, conditionally run the pre-install hooks, copy the repository
content onto the target, conditionally run the post-install hooks, and return
fresh metadata built from the captured HEAD hash and the hook hashes. -/
def install (d : Dotfile) (maybe_metadata : Option DotfileMetadata)
    (skip_install_steps force : Bool) : M DotfileMetadata := do
  let commit_hash ← get_head_hash
  install_guard d maybe_metadata force
  let pre_install_hash ← run_stage skip_install_steps (d.run_pre_install maybe_metadata)
  d.install_dotfile
  let post_install_hash ← run_stage skip_install_steps (d.run_post_install maybe_metadata)
  pure (DotfileMetadata.new commit_hash commit_hash pre_install_hash post_install_hash)

/-- The corruption message of `Dotfile::sync`. -/
def corruptMetadataMsg (dotfile_name : String) : String :=
  "Could not find last sync'd commit for " ++ dotfile_name ++
    ", manifest is corrupt. Try fresh-installing this dotfile or manually correcting the commit hash in " ++
    MANIFEST_PATH

/-- `Dotfile::sync`.  With prior metadata and a changed local target: resolve
the historical parent commit (`metadata.install_hash`, a corruption error when
unresolvable), branch from it, copy the local content there, commit on the
branch, merge the branch into the original HEAD, and return the metadata with
`install_hash` set to the merge commit (the source leaves `sync_hash`
untouched here).  With prior metadata and an unchanged target: return the
metadata unchanged.  Without metadata: copy the local content in, create one
commit, and return fresh metadata pointing both hashes at it. -/
def sync (d : Dotfile) (dotfile_name : String) (config : Config)
    (metadata : Option DotfileMetadata) : M DotfileMetadata := do
  match metadata with
  | some metadata => do
      let changed ← d.has_changed metadata
      if changed then do
        let parent_commit ← (get_commit metadata.install_hash).mapErr
          (fun _ => corruptMetadataMsg dotfile_name)
        let head_ref_nm ← head_ref_name
        let merge_target_commit ← get_head
        checkout_ref parent_commit.id
        copy_local_to_workdir d.target d.file
        let new_branch_name := "merge-" ++ dotfile_name ++ "-dotfile"
        branch new_branch_name parent_commit
        checkout_ref new_branch_name
        let _new_commit ← add_and_commit (some [d.file])
          (config.generate_commit_message [dotfile_name])
          (some [parent_commit.id]) (some "HEAD")
        let new_commit ← get_head
        checkout_ref head_ref_nm
        let merge_commit ← (normal_merge merge_target_commit new_commit).mapErr
          (fun e => "Could not merge commits: " ++ e)
        pure { metadata with install_hash := merge_commit.id }
      else
        pure metadata
  | none => do
      copy_local_to_workdir d.target d.file
      let new_commit ← add_and_commit (some [d.file])
        (config.generate_commit_message [dotfile_name]) none (some "HEAD")
      pure (DotfileMetadata.new new_commit.id new_commit.id
        d.hash_pre_install d.hash_post_install)

end Dotfile

/-- Metadata record as the manifest-level sync workflow manipulates it:
`structs/manifest.rs::Manifest::sync` reads and rewrites a single
commit-pointer field `commit_hash` on each stored record. -/
structure ManifestDotfileMetadata where
  commit_hash : String
deriving DecidableEq, Repr

/-- One step of the timestamp minimum: keep the earlier-seen commit on
ties, as `Iterator::min_by_key` does. -/
def minByTimeStep (acc : Option Commit) (c : Commit) : Option Commit :=
  match acc with
  | none => some c
  | some m => if c.time < m.time then some c else some m

/-- `Iterator::min_by_key(|commit| commit.time())`: the first commit of
minimal timestamp, or `none` on an empty list. -/
def minByTime (cs : List Commit) : Option Commit :=
  cs.foldl minByTimeStep none

namespace Manifest

/-- `first_commit.parent(0)?` of the squash block: resolve the first parent
of the chosen commit, failing when there is none. -/
def resolve_first_parent (commits : List Commit) (first_commit : Commit) : M Commit :=
  match first_commit.parents.head?.bind (findCommit commits) with
  | some c => pure c
  | none => M.throw "commit has no resolvable parent"

/-- The squash block of `structs/manifest.rs::Manifest::sync` (run when
`config.squash_commits` is set): resolve the collected commit hashes, pick the
commit with the minimal timestamp, soft-reset HEAD to its first parent, create
one commit from all staged changes, and point the `commit_hash` of every
dotfile of the synced selection at that new commit. -/
def squash_step (commit_hashes : List String) (dotfile_names : List String)
    (sync_all : Bool) (commit_msg : String)
    (aggregated : List (String × ManifestDotfileMetadata)) :
    M (List (String × ManifestDotfileMetadata)) := do
  let s ← getState
  match minByTime (commit_hashes.filterMap (findCommit s.commits)) with
  | none => pure aggregated
  | some first_commit => do
      let target_commit ← resolve_first_parent s.commits first_commit
      reset_soft target_commit
      let new_commit ← add_and_commit none commit_msg none (some "HEAD")
      pure (aggregated.map
        (fun p =>
          if dotfile_names.contains p.1 || sync_all then
            (p.1, { commit_hash := new_commit.id })
          else p))

end Manifest

/-- The spec sentence for `has_unexecuted_run_stages`, word for word: "true if
either hook list is non-empty and (no metadata exists, or the stored hash of
that hook list differs from the hash of the current hook list)".  Kept
separate from the source translation so the two can be compared. -/
def has_unexecuted_run_stages_spec (d : Dotfile) (maybe_metadata : Option DotfileMetadata) :
    Bool :=
  ((match d.pre_install with
    | some l => !l.isEmpty
    | none => false)
      && (match maybe_metadata with
          | none => true
          | some m => m.pre_install_hash ≠ d.hash_pre_install))
    || ((match d.post_install with
         | some l => !l.isEmpty
         | none => false)
          && (match maybe_metadata with
              | none => true
              | some m => m.post_install_hash ≠ d.hash_post_install))

/-!
Concrete fixtures: a one-commit repository whose dotfile content is "old",
with the branch `refs/heads/master` checked out, and a local copy of the
dotfile at `~/dotfile`.
-/

/-- The root commit of the concrete scenarios. -/
def exCommit : Commit :=
  { id := "c1", parents := [], time := 0, message := "initial", tree := [("dotfile", "old")] }

/-- Repository state with the local dotfile edited to "new". -/
def changedState : SyncState :=
  { commits := [exCommit], refs := [("refs/heads/master", "c1")],
    head := .ref "refs/heads/master",
    workdir := [("dotfile", "old")], index := [("dotfile", "old")],
    localFs := [("~/dotfile", "new")], executedHooks := [], nextId := 0, nextTime := 10 }

/-- Repository state with the local dotfile equal to the synced content. -/
def unchangedState : SyncState :=
  { changedState with localFs := [("~/dotfile", "old")] }

/-- Repository state whose only commit does not contain the dotfile at all
(so reading it back after the checkout of `sync_hash` fails). -/
def missingFileState : SyncState :=
  { changedState with
    commits := [{ exCommit with tree := [] }], workdir := [], index := [] }

/-- The dotfile of the concrete scenarios. -/
def exDotfile : Dotfile :=
  { file := "dotfile", target := "~/dotfile", pre_install := none, post_install := none }

/-- The dotfile of the concrete scenarios, with hook lists attached. -/
def exHookedDotfile : Dotfile :=
  { exDotfile with pre_install := some ["echo pre"], post_install := some ["echo post"] }

/-- Metadata recording commit `c1` as both installed and last synced. -/
def exMetadata : DotfileMetadata :=
  { install_hash := "c1", sync_hash := "c1", pre_install_hash := "", post_install_hash := "" }

/-- Metadata whose `install_hash` resolves to no commit of the repository. -/
def exCorruptMetadata : DotfileMetadata :=
  { exMetadata with install_hash := "deadbeef" }

/-- The merge-path sync run of the concrete changed-state scenario. -/
def mergeSyncRun : Res DotfileMetadata :=
  (Dotfile.sync exDotfile "dotfile" Config.default (some exMetadata)) changedState

/-- The `has_changed` run of the missing-file scenario. -/
def missingFileRun : Res Bool :=
  (Dotfile.has_changed exDotfile exMetadata) missingFileState

/-- The commit a metadata-less sync of the changed concrete scenario
creates. -/
def naiveSyncCommit : Commit :=
  { id := "commit-0", parents := ["c1"], time := 10,
    message := "🔁 Sync dotfile dotfile", tree := [("dotfile", "new")] }

/-- The state a metadata-less sync of the changed concrete scenario ends
in. -/
def naiveSyncEndState : SyncState :=
  { commits := [naiveSyncCommit, exCommit], refs := [("refs/heads/master", "commit-0")],
    head := .ref "refs/heads/master",
    workdir := [("dotfile", "new")], index := [("dotfile", "new")],
    localFs := [("~/dotfile", "new")], executedHooks := [], nextId := 1, nextTime := 11 }

/-!
Squash fixtures: a base commit and three per-dotfile sync commits with
distinct timestamps 1 < 2 < 3, collected out of timestamp order.
-/

/-- Base commit of the squash scenario. -/
def sqBase : Commit := { id := "c0", parents := [], time := 0, message := "base", tree := [] }

/-- First (oldest) sync commit of the squash scenario. -/
def sqA : Commit :=
  { id := "ca", parents := ["c0"], time := 1, message := "sync A", tree := [("a", "1")] }

/-- Second sync commit of the squash scenario. -/
def sqB : Commit :=
  { id := "cb", parents := ["ca"], time := 2, message := "sync B",
    tree := [("a", "1"), ("b", "2")] }

/-- Third (newest) sync commit of the squash scenario. -/
def sqC : Commit :=
  { id := "cc", parents := ["cb"], time := 3, message := "sync C",
    tree := [("a", "1"), ("b", "2"), ("c", "3")] }

/-- Repository state after the three per-dotfile syncs of the squash
scenario. -/
def sqState : SyncState :=
  { commits := [sqC, sqB, sqA, sqBase], refs := [("refs/heads/master", "cc")],
    head := .ref "refs/heads/master",
    workdir := [("a", "1"), ("b", "2"), ("c", "3")],
    index := [("a", "1"), ("b", "2"), ("c", "3")],
    localFs := [], executedHooks := [], nextId := 0, nextTime := 10 }

/-- Aggregated metadata after the three per-dotfile syncs of the squash
scenario, plus one unrelated dotfile. -/
def sqAggregated : List (String × ManifestDotfileMetadata) :=
  [("A", ⟨"ca"⟩), ("B", ⟨"cb"⟩), ("C", ⟨"cc"⟩), ("other", ⟨"zz"⟩)]

/-- The squash run of the squash scenario, with the collected commit hashes
deliberately listed out of timestamp order. -/
def sqRun : Res (List (String × ManifestDotfileMetadata)) :=
  (Manifest.squash_step ["cb", "cc", "ca"] ["A", "B", "C"] false "squash message"
    sqAggregated) sqState

/-- The single commit the squash scenario creates. -/
def sqNewCommit : Commit :=
  { id := "commit-0", parents := ["c0"], time := 10, message := "squash message",
    tree := [("a", "1"), ("b", "2"), ("c", "3")] }

/-- The state the squash scenario ends in. -/
def sqEndState : SyncState :=
  { commits := [sqNewCommit, sqC, sqB, sqA, sqBase],
    refs := [("refs/heads/master", "commit-0")],
    head := .ref "refs/heads/master",
    workdir := [("a", "1"), ("b", "2"), ("c", "3")],
    index := [("a", "1"), ("b", "2"), ("c", "3")],
    localFs := [], executedHooks := [], nextId := 1, nextTime := 11 }

/-- The aggregated metadata the squash scenario ends with. -/
def sqAggEnd : List (String × ManifestDotfileMetadata) :=
  [("A", ⟨"commit-0"⟩), ("B", ⟨"commit-0"⟩), ("C", ⟨"commit-0"⟩), ("other", ⟨"zz"⟩)]

/-- The state fields never touched by checkouts, reads or hash computations:
everything except HEAD, the working directory and the index. -/
def checkoutFrame (s s1 : SyncState) : Prop :=
  s1.commits = s.commits ∧ s1.refs = s.refs ∧ s1.localFs = s.localFs ∧
    s1.executedHooks = s.executedHooks ∧ s1.nextId = s.nextId ∧ s1.nextTime = s.nextTime

/-!
## Theorems
-/

@[simp] theorem M.run_pure {α : Type} (a : α) (s : SyncState) :
    (pure a : M α) s = Res.ok a s := rfl

@[simp] theorem M.run_bind {α β : Type} (x : M α) (f : α → M β) (s : SyncState) :
    (x >>= f) s =
      match x s with
      | .ok a s1 => f a s1
      | .err e s1 => Res.err e s1 := rfl

@[simp] theorem M.run_throw {α : Type} (e : String) (s : SyncState) :
    (M.throw e : M α) s = Res.err e s := rfl

@[simp] theorem run_getState (s : SyncState) : getState s = Res.ok s s := rfl

@[simp] theorem run_setState (s1 s : SyncState) : setState s1 s = Res.ok () s1 := rfl

theorem checkoutFrame_rfl (s : SyncState) : checkoutFrame s s :=
  ⟨rfl, rfl, rfl, rfl, rfl, rfl⟩

theorem checkoutFrame_trans {s s1 s2 : SyncState} (h1 : checkoutFrame s s1)
    (h2 : checkoutFrame s1 s2) : checkoutFrame s s2 := by
  obtain ⟨a1, b1, c1, d1, e1, f1⟩ := h1
  obtain ⟨a2, b2, c2, d2, e2, f2⟩ := h2
  exact ⟨a2.trans a1, b2.trans b1, c2.trans c1, d2.trans d1, e2.trans e1, f2.trans f1⟩

theorem head_ref_name_state (s : SyncState) : (head_ref_name s).state = s := by
  unfold head_ref_name
  cases hh : s.head with
  | ref n => simp only [hh]; split <;> rfl
  | detached id => simp only [hh]; rfl

theorem read_local_file_state (p : String) (s : SyncState) :
    (read_local_file p s).state = s := by
  unfold read_local_file
  split <;> rfl

theorem read_workdir_file_state (p : String) (s : SyncState) :
    (read_workdir_file p s).state = s := by
  unfold read_workdir_file
  split <;> rfl

theorem get_head_state (s : SyncState) : (get_head s).state = s := by
  unfold get_head
  split <;> rfl

theorem get_head_hash_state (s : SyncState) : (get_head_hash s).state = s := by
  unfold get_head_hash
  simp only [M.run_bind]
  rcases h : get_head s with ⟨c, s1⟩ | ⟨e, s1⟩ <;>
    · have hs := get_head_state s
      rw [h] at hs
      exact hs

theorem get_commit_state (h : String) (s : SyncState) : (get_commit h s).state = s := by
  unfold get_commit
  split <;> rfl

theorem checkoutTree_frame (s : SyncState) (t : List (String × String)) :
    checkoutFrame s (checkoutTree s t) := by
  unfold checkoutTree
  exact ⟨rfl, rfl, rfl, rfl, rfl, rfl⟩

theorem checkoutTree_head (s : SyncState) (t : List (String × String)) :
    (checkoutTree s t).head = s.head := rfl

theorem checkout_ref_frame (r : String) (s : SyncState) :
    checkoutFrame s ((checkout_ref r s).state) := by
  unfold checkout_ref
  rcases h : revparse s r with - | ⟨c, tgt⟩
  · exact checkoutFrame_rfl s
  · have hframe := checkoutTree_frame s c.tree
    rcases tgt <;>
      simpa [Res.state] using hframe

theorem checkout_ref_named_ok_head {r : String} {u : Unit} {s s1 : SyncState}
    (hne : r ≠ "HEAD") (hlook : (s.refs.lookup r).isSome = true)
    (h : checkout_ref r s = Res.ok u s1) : s1.head = Head.ref r := by
  unfold checkout_ref revparse at h
  rw [if_neg hne] at h
  rcases hcid : s.refs.lookup r with - | cid
  · rw [hcid] at hlook; simp at hlook
  · simp only [hcid] at h
    rcases hfc : findCommit s.commits cid with - | c
    · simp only [hfc, Option.map] at h
      exact absurd h (by simp)
    · simp only [hfc, Option.map] at h
      injection h with _ h2
      rw [← h2]

theorem head_ref_name_ref_ok {n nm : String} {s sx : SyncState}
    (hn : s.head = Head.ref n) (h1 : head_ref_name s = Res.ok nm sx) :
    nm = n ∧ (s.refs.lookup n).isSome = true := by
  unfold head_ref_name at h1
  rw [hn] at h1
  simp only [] at h1
  split at h1
  · exact ⟨(by injection h1 with hv _; exact hv.symm), by assumption⟩
  · exact absurd h1 (by simp)

/-- On every successful return, `has_changed` has not touched the commit
list, the refs, the local filesystem, the hook trace or the counters, and has
restored HEAD whenever HEAD was a (normally named) branch ref at entry. -/
theorem has_changed_ok (d : Dotfile) (md : DotfileMetadata) {b : Bool} {s s1 : SyncState}
    (h : (d.has_changed md) s = Res.ok b s1) :
    checkoutFrame s s1 ∧ ∀ n, s.head = Head.ref n → n ≠ "HEAD" → s1.head = s.head := by
  unfold Dotfile.has_changed at h
  simp only [M.run_bind] at h
  split at h
  case h_2 e1 sa h1 => exact absurd h (by simp)
  case h_1 nm sa h1 =>
  have hsa : sa = s := by have hx := head_ref_name_state s; rwa [h1] at hx
  rw [hsa] at h h1
  split at h
  case h_2 e2 sb h2 => exact absurd h (by simp)
  case h_1 c sb h2 =>
  have hsb : sb = s := by have hx := read_local_file_state d.target s; rwa [h2] at hx
  rw [hsb] at h
  split at h
  case h_2 e3 sc h3 => exact absurd h (by simp)
  case h_1 u3 sc h3 =>
  have hf3 : checkoutFrame s sc := by
    have hx := checkout_ref_frame md.sync_hash s; rwa [h3] at hx
  split at h
  case h_2 e4 sd h4 => exact absurd h (by simp)
  case h_1 rc sd h4 =>
  have hsd : sd = sc := by have hx := read_workdir_file_state d.file sc; rwa [h4] at hx
  rw [hsd] at h
  have hmain : ∀ (u5 : Unit) (se : SyncState), checkout_ref nm sc = Res.ok u5 se → se = s1 →
      checkoutFrame s s1 ∧ ∀ n, s.head = Head.ref n → n ≠ "HEAD" → s1.head = s.head := by
    intro u5 se h5 hse
    rw [hse] at h5
    have hf5 : checkoutFrame sc s1 := by
      have hx := checkout_ref_frame nm sc; rwa [h5] at hx
    refine ⟨checkoutFrame_trans hf3 hf5, ?_⟩
    intro n hn hne
    obtain ⟨hnmn, hlook⟩ := head_ref_name_ref_ok hn h1
    rw [hnmn] at h5
    have hlook2 : (sc.refs.lookup n).isSome = true := by rw [hf3.2.1]; exact hlook
    rw [hn]
    exact checkout_ref_named_ok_head hne hlook2 h5
  split at h <;>
    · simp only [M.run_bind] at h
      split at h
      case h_2 => exact absurd h (by simp)
      case h_1 u5 se h5 =>
        simp only [M.run_pure] at h
        injection h with _ hs1
        exact hmain u5 se h5 hs1

/-- Decompose a successful run of a bind into its two successful stages. -/
theorem bind_ok {α β : Type} {x : M α} {f : α → M β} {s s2 : SyncState} {b : β}
    (h : (x >>= f) s = Res.ok b s2) :
    ∃ a s1, x s = Res.ok a s1 ∧ f a s1 = Res.ok b s2 := by
  simp only [M.run_bind] at h
  rcases hx : x s with ⟨a, s1⟩ | ⟨e, s1⟩
  · rw [hx] at h; exact ⟨a, s1, rfl, h⟩
  · rw [hx] at h; exact absurd h (by simp)

theorem pure_ok {α : Type} {a b : α} {s s1 : SyncState}
    (h : (pure a : M α) s = Res.ok b s1) : b = a ∧ s1 = s := by
  simp only [M.run_pure] at h
  injection h with h1 h2
  exact ⟨h1.symm, h2.symm⟩

theorem copy_local_to_workdir_ok {src dst : String} {u : Unit} {s s1 : SyncState}
    (h : copy_local_to_workdir src dst s = Res.ok u s1) :
    s1.commits = s.commits ∧ s1.refs = s.refs ∧ s1.head = s.head ∧
      s1.localFs = s.localFs ∧ s1.executedHooks = s.executedHooks ∧
      s1.nextId = s.nextId ∧ s1.nextTime = s.nextTime := by
  unfold copy_local_to_workdir at h
  split at h
  · injection h with _ h2
    rw [← h2]
    exact ⟨rfl, rfl, rfl, rfl, rfl, rfl, rfl⟩
  · exact absurd h (by simp)

theorem add_all_ok {fp : Option (List String)} {u : Unit} {s s1 : SyncState}
    (h : add_all fp s = Res.ok u s1) :
    s1.commits = s.commits ∧ s1.refs = s.refs ∧ s1.head = s.head ∧
      s1.workdir = s.workdir ∧ s1.localFs = s.localFs ∧
      s1.executedHooks = s.executedHooks ∧ s1.nextId = s.nextId ∧
      s1.nextTime = s.nextTime := by
  unfold add_all at h
  split at h <;>
    · injection h with _ h2
      rw [← h2]
      exact ⟨rfl, rfl, rfl, rfl, rfl, rfl, rfl, rfl⟩

theorem get_head_ok_state {c : Commit} {s s1 : SyncState}
    (h : get_head s = Res.ok c s1) : s1 = s := by
  have hx := get_head_state s
  rwa [h] at hx

theorem resolve_parents_state (mp : Option (List String)) (s : SyncState) :
    (resolve_parents mp s).state = s := by
  unfold resolve_parents
  rcases mp with - | ps
  · simp only [M.run_bind]
    rcases h : get_head s with ⟨c, s1⟩ | ⟨e, s1⟩ <;>
      · have hx := get_head_state s
        rw [h] at hx
        exact hx
  · rfl

theorem updateHeadTo_ok {cid : String} {u : Unit} {s s1 : SyncState}
    (h : updateHeadTo cid s = Res.ok u s1) :
    s1.commits = s.commits ∧ s1.workdir = s.workdir ∧ s1.index = s.index ∧
      s1.localFs = s.localFs ∧ s1.executedHooks = s.executedHooks ∧
      s1.nextId = s.nextId ∧ s1.nextTime = s.nextTime := by
  unfold updateHeadTo at h
  split at h <;>
    · injection h with _ h2
      rw [← h2]
      exact ⟨rfl, rfl, rfl, rfl, rfl, rfl, rfl⟩

/-- On any successful run, `add_and_commit` prepends exactly the returned
commit to the commit list and touches neither the local filesystem nor the
hook trace. -/
theorem add_and_commit_ok {fp : Option (List String)} {msg : String}
    {mp : Option (List String)} {ur : Option String} {c : Commit} {s s1 : SyncState}
    (h : add_and_commit fp msg mp ur s = Res.ok c s1) :
    s1.commits = c :: s.commits ∧ s1.localFs = s.localFs ∧
      s1.executedHooks = s.executedHooks := by
  unfold add_and_commit at h
  obtain ⟨uA, sA, hA, h⟩ := bind_ok h
  obtain ⟨hAc, -, -, -, hAl, hAe, -, -⟩ := add_all_ok hA
  obtain ⟨ps, sB, hB, h⟩ := bind_ok h
  have hsB : sB = sA := by
    have hx := resolve_parents_state mp sA
    rwa [hB] at hx
  rw [hsB] at h
  obtain ⟨sv, sC, hC, h⟩ := bind_ok h
  rw [run_getState] at hC
  injection hC with hv1 hv2
  rw [← hv1, ← hv2] at h
  obtain ⟨uD, sD, hD, h⟩ := bind_ok h
  rw [run_setState] at hD
  injection hD with _ hv3
  obtain ⟨uE, sE, hE, h⟩ := bind_ok h
  obtain ⟨hcv, hs1⟩ := pure_ok h
  have hEfacts :
      sE.commits = sD.commits ∧ sE.localFs = sD.localFs ∧
        sE.executedHooks = sD.executedHooks := by
    unfold update_ref_step at hE
    rcases ur with - | r
    · obtain ⟨-, h2⟩ := pure_ok hE
      rw [h2]; exact ⟨rfl, rfl, rfl⟩
    · obtain ⟨h1, -, -, h4, h5, -, -⟩ := updateHeadTo_ok hE
      exact ⟨h1, h4, h5⟩
  rw [hs1, hcv]
  refine ⟨?_, ?_, ?_⟩
  · rw [hEfacts.1, ← hv3]
    rw [show ({ sA with
        commits :=
          { id := "commit-" ++ toString sA.nextId, parents := ps,
            time := sA.nextTime, message := msg, tree := sA.index } :: sA.commits,
        nextId := sA.nextId + 1, nextTime := sA.nextTime + 1 } : SyncState).commits =
      { id := "commit-" ++ toString sA.nextId, parents := ps,
        time := sA.nextTime, message := msg, tree := sA.index } :: sA.commits from rfl]
    rw [hAc]
  · rw [hEfacts.2.1, ← hv3]
    rw [show ({ sA with
        commits :=
          { id := "commit-" ++ toString sA.nextId, parents := ps,
            time := sA.nextTime, message := msg, tree := sA.index } :: sA.commits,
        nextId := sA.nextId + 1, nextTime := sA.nextTime + 1 } : SyncState).localFs =
      sA.localFs from rfl]
    rw [hAl]
  · rw [hEfacts.2.2, ← hv3]
    rw [show ({ sA with
        commits :=
          { id := "commit-" ++ toString sA.nextId, parents := ps,
            time := sA.nextTime, message := msg, tree := sA.index } :: sA.commits,
        nextId := sA.nextId + 1, nextTime := sA.nextTime + 1 } : SyncState).executedHooks =
      sA.executedHooks from rfl]
    rw [hAe]

/-- C8 counterexample: a dotfile whose `pre_install` key is present but holds
an empty command list.  The source returns `true` (it tests `is_some`), while
the claimed characterisation ("either hook list is non-empty and ...")
evaluates to `false`, so the claimed equivalence fails at this input. -/
theorem c8_counterexample_empty_hook_list :
    Dotfile.has_unexecuted_run_stages
        { file := "f", target := "t", pre_install := some [], post_install := none } none = true
      ∧ has_unexecuted_run_stages_spec
          { file := "f", target := "t", pre_install := some [], post_install := none } none
          = false := by
  decide

/-- C8 (amended): `has_unexecuted_run_stages` returns true iff either hook
list is present (`Some`, even when the command list is empty) and (no
metadata exists, or the stored hash of that hook list differs from the hash
of the current hook list). -/
theorem c8_has_unexecuted_run_stages_iff (d : Dotfile) (md : Option DotfileMetadata) :
    d.has_unexecuted_run_stages md = true ↔
      ((d.pre_install.isSome = true ∧
          (md = none ∨ ∃ m, md = some m ∧ m.pre_install_hash ≠ d.hash_pre_install))
        ∨ (d.post_install.isSome = true ∧
            (md = none ∨ ∃ m, md = some m ∧ m.post_install_hash ≠ d.hash_post_install))) := by
  cases md with
  | none => simp [Dotfile.has_unexecuted_run_stages]
  | some m =>
      simp [Dotfile.has_unexecuted_run_stages]

/-- C1: at the concrete merge-path scenario (prior metadata at commit `c1`,
local content edited), sync succeeds and the resulting merge commit is
`commit-1` (it carries the message "Merge" and is the new HEAD); the returned
metadata has `install_hash` updated to `commit-1` but `sync_hash` still holds
the stale `c1`, not the merge commit id as the claim states. -/
theorem c1_sync_merge_path_keeps_stale_sync_hash :
    mergeSyncRun.value? =
        some { install_hash := "commit-1", sync_hash := "c1",
               pre_install_hash := "", post_install_hash := "" }
      ∧ (findCommit mergeSyncRun.state.commits "commit-1").map Commit.message = some "Merge"
      ∧ resolveHeadId mergeSyncRun.state = some "commit-1" := by
  decide

/-- C3: at the concrete scenario where the file is absent from the tree of
`metadata.sync_hash`, `has_changed` enters with HEAD on
`refs/heads/master`, fails on the repository-file read after the checkout,
and returns with HEAD still detached at `c1` — the checkout is not restored
on this early error return. -/
theorem c3_has_changed_error_leaves_head_unrestored :
    missingFileState.head = Head.ref "refs/heads/master"
      ∧ missingFileRun.isOk = false
      ∧ missingFileRun.state.head = Head.detached "c1" := by
  decide

/-- C2: with prior metadata, `force = false` and local content differing from
the content recorded at `metadata.sync_hash` (`has_changed` returning true),
`install` fails with the local-changes error, and the state it returns has
the local filesystem (in particular the target file) and the hook execution
trace exactly as at entry: nothing was copied and no hook ran before the
refusal. -/
theorem c2_install_refuses_without_touching_target (d : Dotfile) (md : DotfileMetadata)
    (skip : Bool) {ch : String} {s s1 : SyncState}
    (hhead : get_head_hash s = Res.ok ch s)
    (hchanged : (d.has_changed md) s = Res.ok true s1) :
    (d.install (some md) skip false) s = Res.err Dotfile.localChangesMsg s1
      ∧ s1.localFs = s.localFs ∧ s1.executedHooks = s.executedHooks := by
  obtain ⟨hf, -⟩ := has_changed_ok d md hchanged
  refine ⟨?_, hf.2.2.1, hf.2.2.2.1⟩
  have hguard : Dotfile.install_guard d (some md) false s =
      Res.err Dotfile.localChangesMsg s1 := by
    unfold Dotfile.install_guard
    simp only [M.run_bind, M.run_pure, M.run_throw, hchanged, Bool.not_false,
      if_true, eq_self_iff_true]
  unfold Dotfile.install
  simp only [M.run_bind, M.run_pure, hhead, hguard]

/-- C2 witness: the concrete changed-state scenario. -/
theorem c2_witness :
    (Dotfile.install exDotfile (some exMetadata) true false) changedState =
        Res.err Dotfile.localChangesMsg changedState
      ∧ changedState.localFs = changedState.localFs
      ∧ changedState.executedHooks = changedState.executedHooks :=
  @c2_install_refuses_without_touching_target exDotfile exMetadata true "c1"
    changedState changedState (by decide) (by decide)

/-- C5: with prior metadata and the local content equal to the content at
`metadata.sync_hash` (`has_changed` returning false), sync returns the
metadata unchanged and performs zero VCS mutations: the commit list, the refs
and HEAD at exit are those at entry (and the local filesystem and hook trace
are untouched as well). -/
theorem c5_sync_unchanged_is_noop (d : Dotfile) (name : String) (cfg : Config)
    (md : DotfileMetadata) {n : String} {s s1 : SyncState}
    (hhead : s.head = Head.ref n) (hne : n ≠ "HEAD")
    (hunchanged : (d.has_changed md) s = Res.ok false s1) :
    (d.sync name cfg (some md)) s = Res.ok md s1
      ∧ s1.commits = s.commits ∧ s1.refs = s.refs ∧ s1.head = s.head
      ∧ s1.localFs = s.localFs ∧ s1.executedHooks = s.executedHooks := by
  obtain ⟨hf, hrestore⟩ := has_changed_ok d md hunchanged
  refine ⟨?_, hf.1, hf.2.1, hrestore n hhead hne, hf.2.2.1, hf.2.2.2.1⟩
  unfold Dotfile.sync
  simp only [M.run_bind, M.run_pure, hunchanged, Bool.false_eq_true, if_false]

/-- C5 witness: the concrete unchanged-state scenario. -/
theorem c5_witness :
    (Dotfile.sync exDotfile "dotfile" Config.default (some exMetadata)) unchangedState =
        Res.ok exMetadata unchangedState
      ∧ unchangedState.commits = unchangedState.commits
      ∧ unchangedState.refs = unchangedState.refs
      ∧ unchangedState.head = unchangedState.head
      ∧ unchangedState.localFs = unchangedState.localFs
      ∧ unchangedState.executedHooks = unchangedState.executedHooks :=
  @c5_sync_unchanged_is_noop exDotfile "dotfile" Config.default exMetadata
    "refs/heads/master" unchangedState unchangedState (by decide) (by decide) (by decide)

/-- C7: with prior metadata and changed local content, when
`metadata.install_hash` resolves to no commit of the repository (it is
neither a ref name nor a commit id), sync fails with the corruption error
advising manual correction or a fresh install, and returns no metadata. -/
theorem c7_sync_corrupt_metadata_error (d : Dotfile) (name : String) (cfg : Config)
    (md : DotfileMetadata) {s s1 : SyncState}
    (hchanged : (d.has_changed md) s = Res.ok true s1)
    (hnoref : s.refs.lookup md.install_hash = none)
    (hnocommit : findCommit s.commits md.install_hash = none)
    (hnothead : md.install_hash ≠ "HEAD") :
    (d.sync name cfg (some md)) s = Res.err (Dotfile.corruptMetadataMsg name) s1 := by
  obtain ⟨hf, -⟩ := has_changed_ok d md hchanged
  have hrev : revparse s1 md.install_hash = none := by
    unfold revparse
    rw [if_neg hnothead]
    simp [hf.1, hf.2.1, hnoref, hnocommit]
  unfold Dotfile.sync
  simp only [M.run_bind, M.run_pure, hchanged, if_true, eq_self_iff_true]
  unfold M.mapErr get_commit
  simp only [hrev]

/-- C7 witness: the concrete changed-state scenario with metadata whose
`install_hash` is the unresolvable `deadbeef`. -/
theorem c7_witness :
    (Dotfile.sync exDotfile "dotfile" Config.default (some exCorruptMetadata)) changedState =
      Res.err (Dotfile.corruptMetadataMsg "dotfile") changedState :=
  @c7_sync_corrupt_metadata_error exDotfile "dotfile" Config.default exCorruptMetadata
    changedState changedState (by decide) (by decide) (by decide) (by decide)

/-- C9: every successful `install` returns metadata whose `install_hash` and
`sync_hash` both equal the repository HEAD hash captured at the start of the
call. -/
theorem c9_install_metadata_hashes_equal_head (d : Dotfile) (mmd : Option DotfileMetadata)
    (skip force : Bool) {ch : String} {md1 : DotfileMetadata} {s s1 : SyncState}
    (hhead : get_head_hash s = Res.ok ch s)
    (hinstall : (d.install mmd skip force) s = Res.ok md1 s1) :
    md1.install_hash = ch ∧ md1.sync_hash = ch := by
  unfold Dotfile.install at hinstall
  obtain ⟨ch1, sA, h0, h⟩ := bind_ok hinstall
  rw [hhead] at h0
  injection h0 with hv hsA
  rw [← hv, ← hsA] at h
  obtain ⟨uB, sB, hB, h⟩ := bind_ok h
  obtain ⟨p, sC, hC, h⟩ := bind_ok h
  obtain ⟨uD, sD, hD, h⟩ := bind_ok h
  obtain ⟨q, sE, hE, h⟩ := bind_ok h
  obtain ⟨hval, -⟩ := pure_ok h
  rw [hval]
  exact ⟨rfl, rfl⟩

/-- C9 witness: installing over the unchanged concrete scenario. -/
theorem c9_witness :
    DotfileMetadata.install_hash
        { install_hash := "c1", sync_hash := "c1",
          pre_install_hash := "", post_install_hash := "" } = "c1"
      ∧ DotfileMetadata.sync_hash
          { install_hash := "c1", sync_hash := "c1",
            pre_install_hash := "", post_install_hash := "" } = "c1" :=
  @c9_install_metadata_hashes_equal_head exDotfile (some exMetadata) false false "c1"
    { install_hash := "c1", sync_hash := "c1",
      pre_install_hash := "", post_install_hash := "" }
    unchangedState unchangedState (by decide) (by decide)

/-- C4: every successful first sync (no prior metadata) adds exactly one new
commit on top of the entry commit list and returns metadata with
`install_hash = sync_hash = ` the id of that new commit. -/
theorem c4_first_sync_single_commit (d : Dotfile) (name : String) (cfg : Config)
    {md1 : DotfileMetadata} {s s1 : SyncState}
    (h : (d.sync name cfg none) s = Res.ok md1 s1) :
    md1.install_hash = md1.sync_hash
      ∧ s1.commits.length = s.commits.length + 1
      ∧ s1.commits.tail = s.commits
      ∧ s1.commits.head?.map Commit.id = some md1.sync_hash := by
  unfold Dotfile.sync at h
  obtain ⟨uA, sA, hcopy, h⟩ := bind_ok h
  obtain ⟨nc, sB, hcommit, h⟩ := bind_ok h
  obtain ⟨hval, hs1⟩ := pure_ok h
  obtain ⟨hAc, -, -, -, -, -, -⟩ := copy_local_to_workdir_ok hcopy
  obtain ⟨hBc, -, -⟩ := add_and_commit_ok hcommit
  rw [hval, hs1, hBc, hAc]
  exact ⟨rfl, by simp, rfl, rfl⟩

/-- C4 witness: the concrete changed-state scenario synced without
metadata. -/
theorem c4_witness :
    DotfileMetadata.install_hash
        { install_hash := "commit-0", sync_hash := "commit-0",
          pre_install_hash := "", post_install_hash := "" } =
      DotfileMetadata.sync_hash
        { install_hash := "commit-0", sync_hash := "commit-0",
          pre_install_hash := "", post_install_hash := "" }
      ∧ naiveSyncEndState.commits.length = changedState.commits.length + 1
      ∧ naiveSyncEndState.commits.tail = changedState.commits
      ∧ naiveSyncEndState.commits.head?.map Commit.id =
        some (DotfileMetadata.sync_hash
          { install_hash := "commit-0", sync_hash := "commit-0",
            pre_install_hash := "", post_install_hash := "" }) :=
  @c4_first_sync_single_commit exDotfile "dotfile" Config.default
    { install_hash := "commit-0", sync_hash := "commit-0",
      pre_install_hash := "", post_install_hash := "" }
    changedState naiveSyncEndState (by decide)

/-- C10: every successful first sync (no prior metadata) returns metadata
whose hook hashes are the hashes of the current hook command lists even
though sync ran no hooks (the trace is unchanged); consequently a later
`install` given this metadata skips both hook stages. -/
theorem c10_naive_sync_marks_hooks_executed (d : Dotfile) (name : String) (cfg : Config)
    {md1 : DotfileMetadata} {s s1 : SyncState}
    (h : (d.sync name cfg none) s = Res.ok md1 s1) :
    md1.pre_install_hash = d.hash_pre_install
      ∧ md1.post_install_hash = d.hash_post_install
      ∧ s1.executedHooks = s.executedHooks
      ∧ (∀ s2, (d.run_pre_install (some md1)) s2 = Res.ok "" s2)
      ∧ (∀ s2, (d.run_post_install (some md1)) s2 = Res.ok "" s2) := by
  unfold Dotfile.sync at h
  obtain ⟨uA, sA, hcopy, h⟩ := bind_ok h
  obtain ⟨nc, sB, hcommit, h⟩ := bind_ok h
  obtain ⟨hval, hs1⟩ := pure_ok h
  obtain ⟨-, -, -, -, hAe, -, -⟩ := copy_local_to_workdir_ok hcopy
  obtain ⟨-, -, hBe⟩ := add_and_commit_ok hcommit
  have hpre : md1.pre_install_hash = d.hash_pre_install := by rw [hval]; rfl
  have hpost : md1.post_install_hash = d.hash_post_install := by rw [hval]; rfl
  refine ⟨hpre, hpost, by rw [hs1, hBe, hAe], ?_, ?_⟩
  · intro s2
    unfold Dotfile.run_pre_install
    rcases hp : d.pre_install with - | cmds
    · rfl
    · simp only [hp, hpre, beq_self_eq_true, eq_self_iff_true, if_true]
      rfl
  · intro s2
    unfold Dotfile.run_post_install
    rcases hp : d.post_install with - | cmds
    · rfl
    · simp only [hp, hpost, beq_self_eq_true, eq_self_iff_true, if_true]
      rfl

theorem minByTime_foldl_some (cs : List Commit) (m : Commit) :
    ∃ c, cs.foldl minByTimeStep (some m) = some c
      ∧ (c = m ∨ c ∈ cs) ∧ c.time ≤ m.time ∧ ∀ x ∈ cs, c.time ≤ x.time := by
  induction cs generalizing m with
  | nil => exact ⟨m, rfl, Or.inl rfl, le_refl _, by simp⟩
  | cons a rest ih =>
      by_cases hlt : a.time < m.time
      · obtain ⟨c, hfold, hmem, hle, hall⟩ := ih a
        refine ⟨c, ?_, ?_, ?_, ?_⟩
        · rw [List.foldl_cons,
            show minByTimeStep (some m) a = some a from by simp [minByTimeStep, hlt]]
          exact hfold
        · rcases hmem with h | h
          · exact Or.inr (by simp [h])
          · exact Or.inr (by simp [h])
        · exact le_of_lt (lt_of_le_of_lt hle hlt)
        · intro x hx
          rcases List.mem_cons.mp hx with h | h
          · rw [h]; exact hle
          · exact hall x h
      · obtain ⟨c, hfold, hmem, hle, hall⟩ := ih m
        refine ⟨c, ?_, ?_, ?_, ?_⟩
        · rw [List.foldl_cons,
            show minByTimeStep (some m) a = some m from by simp [minByTimeStep, hlt]]
          exact hfold
        · rcases hmem with h | h
          · exact Or.inl h
          · exact Or.inr (by simp [h])
        · exact hle
        · intro x hx
          rcases List.mem_cons.mp hx with h | h
          · rw [h]; exact le_trans hle (not_lt.mp hlt)
          · exact hall x h

/-- `minByTime` returns a member of minimal timestamp: the oldest collected
commit regardless of its position in the list. -/
theorem minByTime_ok {cs : List Commit} {c : Commit} (h : minByTime cs = some c) :
    c ∈ cs ∧ ∀ x ∈ cs, c.time ≤ x.time := by
  rcases cs with - | ⟨a, rest⟩
  · exact absurd h (by simp [minByTime])
  · unfold minByTime at h
    rw [List.foldl_cons, show minByTimeStep none a = some a from rfl] at h
    obtain ⟨c1, hfold, hmem, hle, hall⟩ := minByTime_foldl_some rest a
    rw [hfold] at h
    injection h with hc
    rw [← hc]
    constructor
    · rcases hmem with h1 | h1
      · rw [h1]; exact List.mem_cons_self a rest
      · exact List.mem_cons_of_mem a h1
    · intro x hx
      rcases List.mem_cons.mp hx with h1 | h1
      · rw [h1]; exact hle
      · exact hall x h1

theorem lookup_upsert (l : List (String × String)) (k v : String) :
    (upsert l k v).lookup k = some v := by
  simp [upsert, List.lookup]

theorem findCommit_id {cs : List Commit} {i : String} {c : Commit}
    (h : findCommit cs i = some c) : c.id = i := by
  unfold findCommit at h
  have hx := List.find?_some h
  simpa using hx

/-- C6: a successful squash step with a non-empty set of resolvable collected
commits picks the commit of minimal timestamp (regardless of list position),
soft-resets the branch to its first parent, creates exactly one new commit
whose parent is that parent, leaves the branch ref on the new commit, and
rewrites the metadata of every dotfile of the synced selection to point at
the new commit. -/
theorem c6_squash_oldest_reset_rewrite (hashes names : List String) (sync_all : Bool)
    (msg : String) (agg : List (String × ManifestDotfileMetadata))
    {n pid : String} {fc pc : Commit}
    {agg1 : List (String × ManifestDotfileMetadata)} {s s1 : SyncState}
    (hhead : s.head = Head.ref n)
    (hmin : minByTime (hashes.filterMap (findCommit s.commits)) = some fc)
    (hpar : fc.parents.head? = some pid)
    (hpc : findCommit s.commits pid = some pc)
    (hs : (Manifest.squash_step hashes names sync_all msg agg) s = Res.ok agg1 s1) :
    (fc ∈ hashes.filterMap (findCommit s.commits)
        ∧ ∀ x ∈ hashes.filterMap (findCommit s.commits), fc.time ≤ x.time)
      ∧ s1.commits.tail = s.commits
      ∧ s1.commits.length = s.commits.length + 1
      ∧ s1.commits.head?.map Commit.parents = some [pc.id]
      ∧ s1.refs.lookup n = s1.commits.head?.map Commit.id
      ∧ ∀ nm md0, (nm, md0) ∈ agg → (names.contains nm || sync_all) = true →
          ∃ ncid, s1.commits.head?.map Commit.id = some ncid
            ∧ (nm, ManifestDotfileMetadata.mk ncid) ∈ agg1 := by
  refine ⟨minByTime_ok hmin, ?_⟩
  unfold Manifest.squash_step at hs
  obtain ⟨sv, sC, hG, hs⟩ := bind_ok hs
  rw [run_getState] at hG
  injection hG with hv1 hv2
  rw [← hv1, ← hv2] at hs
  rw [hmin] at hs
  obtain ⟨tc, sT, hT, hs⟩ := bind_ok hs
  unfold Manifest.resolve_first_parent at hT
  rw [hpar] at hT
  simp only [Option.some_bind] at hT
  rw [hpc] at hT
  simp only [M.run_pure] at hT
  injection hT with htc hsT
  rw [← htc, ← hsT] at hs
  obtain ⟨uR, sR, hR, hs⟩ := bind_ok hs
  unfold reset_soft updateHeadTo at hR
  rw [hhead] at hR
  simp only [] at hR
  injection hR with _ hsR
  have hsR_head : sR.head = Head.ref n := by rw [← hsR]
  have hsR_refs : sR.refs = upsert s.refs n pc.id := by rw [← hsR]
  have hsR_commits : sR.commits = s.commits := by rw [← hsR]
  obtain ⟨nc, sN, hN, hs⟩ := bind_ok hs
  obtain ⟨hagg1, hs1⟩ := pure_ok hs
  unfold add_and_commit at hN
  obtain ⟨uA, sA, hA, hN⟩ := bind_ok hN
  unfold add_all at hA
  simp only [] at hA
  injection hA with _ hsA
  have hsA_head : sA.head = Head.ref n := by rw [← hsA]; exact hsR_head
  have hsA_refs : sA.refs = upsert s.refs n pc.id := by rw [← hsA]; exact hsR_refs
  have hsA_commits : sA.commits = s.commits := by rw [← hsA]; exact hsR_commits
  have hpcid : pc.id = pid := findCommit_id hpc
  have hgh : get_head sA = Res.ok pc sA := by
    unfold get_head resolveHeadId
    rw [hsA_head]
    simp only []
    rw [hsA_refs, lookup_upsert]
    simp only [Option.some_bind]
    rw [hsA_commits, hpcid, hpc]
  obtain ⟨ps, sB, hB, hN⟩ := bind_ok hN
  have hps : ps = [pc.id] ∧ sB = sA := by
    unfold resolve_parents at hB
    obtain ⟨hc, sB1, hgh1, hp⟩ := bind_ok hB
    rw [hgh] at hgh1
    injection hgh1 with hx1 hx2
    obtain ⟨hp1, hp2⟩ := pure_ok hp
    rw [← hx2] at hp2
    rw [← hx1] at hp1
    exact ⟨hp1, hp2⟩
  rw [hps.2] at hN
  obtain ⟨sv2, sC2, hG2, hN⟩ := bind_ok hN
  rw [run_getState] at hG2
  injection hG2 with hw1 hw2
  rw [← hw1, ← hw2] at hN
  obtain ⟨uD, sD, hD, hN⟩ := bind_ok hN
  rw [run_setState] at hD
  injection hD with _ hsD
  have hsD_head : sD.head = Head.ref n := by rw [← hsD]; exact hsA_head
  have hsD_commits :
      sD.commits =
        { id := "commit-" ++ toString sA.nextId, parents := ps,
          time := sA.nextTime, message := msg, tree := sA.index } :: sA.commits := by
    rw [← hsD]
  obtain ⟨uE, sE, hEE, hN⟩ := bind_ok hN
  unfold update_ref_step updateHeadTo at hEE
  simp only [] at hEE
  rw [hsD_head] at hEE
  simp only [] at hEE
  injection hEE with _ hsE
  have hsE_commits : sE.commits = sD.commits := by rw [← hsE]
  have hsE_refs :
      sE.refs = upsert sD.refs n
        ({ id := "commit-" ++ toString sA.nextId, parents := ps,
           time := sA.nextTime, message := msg, tree := sA.index } : Commit).id := by
    rw [← hsE]
  obtain ⟨hnc, hsN⟩ := pure_ok hN
  rw [hs1, hsN, hsE_commits, hsD_commits, hsA_commits]
  refine ⟨rfl, by simp, ?_, ?_, ?_⟩
  · rw [hps.1]
    rfl
  · rw [hsE_refs, lookup_upsert]
    rfl
  · intro nm md0 hmem hcond
    refine ⟨"commit-" ++ toString sA.nextId, rfl, ?_⟩
    rw [hagg1]
    simp only [hnc]
    have hx := List.mem_map_of_mem
      (fun p => if (names.contains p.1 || sync_all) = true then
        (p.1, ManifestDotfileMetadata.mk nc.id) else p) hmem
    simp only [hcond, eq_self_iff_true, if_true, hnc] at hx
    exact hx

/-- C6 witness: the concrete squash scenario with commits of timestamps
1 < 2 < 3 collected out of order; the oldest (`sqA`, listed last) is chosen,
the branch is reset to its parent `c0`, one commit is created on top of it,
and the metadata of the synced selection points at it. -/
theorem c6_witness :
    (sqA ∈ ["cb", "cc", "ca"].filterMap (findCommit sqState.commits)
        ∧ sqA.time ≤ sqC.time)
      ∧ sqEndState.commits.tail = sqState.commits
      ∧ sqEndState.commits.length = sqState.commits.length + 1
      ∧ sqEndState.commits.head?.map Commit.parents = some [sqBase.id]
      ∧ sqEndState.refs.lookup "refs/heads/master" =
          sqEndState.commits.head?.map Commit.id
      ∧ ("B", ManifestDotfileMetadata.mk "commit-0") ∈ sqAggEnd := by
  obtain ⟨⟨h1, h2⟩, h3, h4, h5, h6, h7⟩ :=
    @c6_squash_oldest_reset_rewrite ["cb", "cc", "ca"] ["A", "B", "C"] false
      "squash message" sqAggregated "refs/heads/master" "c0" sqA sqBase
      sqAggEnd sqState sqEndState
      (by decide) (by decide) (by decide) (by decide) (by decide)
  obtain ⟨ncid, hid, hmem⟩ := h7 "B" ⟨"cb"⟩ (by decide) (by decide)
  have hx : sqEndState.commits.head?.map Commit.id = some "commit-0" := by decide
  rw [hx] at hid
  injection hid with hid1
  rw [← hid1] at hmem
  exact ⟨⟨h1, h2 sqC (by decide)⟩, h3, h4, h5, h6, hmem⟩

/-- C10 witness: the hooked dotfile synced without metadata over the concrete
changed state; the returned metadata makes both hook stages skip. -/
theorem c10_witness :
    DotfileMetadata.pre_install_hash
        { install_hash := "commit-0", sync_hash := "commit-0",
          pre_install_hash := "sha1:8:echo pre", post_install_hash := "sha1:9:echo post" } =
      exHookedDotfile.hash_pre_install
      ∧ DotfileMetadata.post_install_hash
          { install_hash := "commit-0", sync_hash := "commit-0",
            pre_install_hash := "sha1:8:echo pre", post_install_hash := "sha1:9:echo post" } =
        exHookedDotfile.hash_post_install
      ∧ naiveSyncEndState.executedHooks = changedState.executedHooks
      ∧ (exHookedDotfile.run_pre_install (some
          { install_hash := "commit-0", sync_hash := "commit-0",
            pre_install_hash := "sha1:8:echo pre", post_install_hash := "sha1:9:echo post" }))
          changedState = Res.ok "" changedState
      ∧ (exHookedDotfile.run_post_install (some
          { install_hash := "commit-0", sync_hash := "commit-0",
            pre_install_hash := "sha1:8:echo pre", post_install_hash := "sha1:9:echo post" }))
          changedState = Res.ok "" changedState := by
  obtain ⟨h1, h2, h3, h4, h5⟩ :=
    @c10_naive_sync_marks_hooks_executed exHookedDotfile "dotfile" Config.default
      { install_hash := "commit-0", sync_hash := "commit-0",
        pre_install_hash := "sha1:8:echo pre", post_install_hash := "sha1:9:echo post" }
      changedState naiveSyncEndState (by decide)
  exact ⟨h1, h2, h3, h4 changedState, h5 changedState⟩

end JTD
